import Mathlib

/-!
Verification of the gacha-simulation core of
`Konecos/arknights-endfield-gacha-simulator` (file `src/App.tsx`).

The simulation core is shallowly embedded: JavaScript numbers are modelled
as rationals, the global random source `Math.random()` as an explicit list
of rational values in `[0, 1)` consumed left to right, and the unbounded
`while` loops as recursions that return `none` when the random stream (or,
for the aggregator, an explicit session budget) runs out.
-/

namespace Gacha

/-- The configuration record `SimulationConfig` of `App.tsx`.  Every field is
a JavaScript number, modelled as a rational; rate fields are percentages. -/
structure SimulationConfig where
  baseRate6 : ℚ
  baseRate5 : ℚ
  pityStart6 : ℚ
  pityInc6 : ℚ
  hardPity6 : ℚ
  hardPity5 : ℚ
  targetGuarantee : ℚ
  targetTotalPulls : ℚ
deriving DecidableEq

/-- The current 6-star rate computed in `simulateOneSession` for a draw made
with 6-star pity counter `pityCounter6` (already incremented for this draw):
base rate, plus escalation past `pityStart6`, clamped above by `1.0`, then
forced to `1.0` from `hardPity6` on. -/
def currentRate6 (cfg : SimulationConfig) (pityCounter6 : ℕ) : ℚ :=
  let baseRate6 := cfg.baseRate6 / 100
  let pityInc6 := cfg.pityInc6 / 100
  let r1 := if (pityCounter6 : ℚ) > cfg.pityStart6 then
      baseRate6 + ((pityCounter6 : ℚ) - cfg.pityStart6) * pityInc6
    else baseRate6
  let r2 := if r1 > 1 then 1 else r1
  if (pityCounter6 : ℚ) ≥ cfg.hardPity6 then 1 else r2

/-- The current 5-star rate computed in `simulateOneSession` for a draw made
with 5-star pity counter `pityCounter5` (already incremented for this draw). -/
def currentRate5 (cfg : SimulationConfig) (pityCounter5 : ℕ) : ℚ :=
  if (pityCounter5 : ℚ) ≥ cfg.hardPity5 then 1 else cfg.baseRate5 / 100

/-- One session result: number of pulls consumed and whether the session was
ended by the absolute `targetGuarantee` rule. -/
structure SessionResult where
  pulls : ℕ
  triggeredGuarantee : Bool
deriving DecidableEq

/-- The `while (!gotTarget)` loop of `simulateOneSession`.  Arguments `pulls`,
`pity6`, `pity5` are the loop variables BEFORE the increments at the top of
the loop body; `rngs` is the remaining stream of `Math.random()` values.
Returns the session result together with the unconsumed rest of the stream,
or `none` if the stream is exhausted before the session ends. -/
def sessionLoop (cfg : SimulationConfig) :
    ℕ → ℕ → ℕ → List ℚ → Option (SessionResult × List ℚ)
  | pulls, pity6, pity5, rngs =>
    if 0 < cfg.targetGuarantee ∧ ((pulls + 1 : ℕ) : ℚ) = cfg.targetGuarantee then
      some (⟨pulls + 1, true⟩, rngs)
    else
      match rngs with
      | [] => none
      | r :: rest =>
        if r < currentRate6 cfg (pity6 + 1) then
          match rest with
          | [] => none
          | r2 :: rest2 =>
            if r2 < (1 : ℚ) / 2 then
              some (⟨pulls + 1, false⟩, rest2)
            else
              sessionLoop cfg (pulls + 1) 0 (pity5 + 1) rest2
        else
          sessionLoop cfg (pulls + 1) (pity6 + 1)
            (if r < currentRate6 cfg (pity6 + 1) + currentRate5 cfg (pity5 + 1) then 0
             else pity5 + 1) rest

/-- `simulateOneSession` of `App.tsx`: run one session from fresh counters. -/
def simulateOneSession (cfg : SimulationConfig) (rngs : List ℚ) :
    Option (SessionResult × List ℚ) :=
  sessionLoop cfg 0 0 0 rngs

/-- The per-draw rare-tier probability as the specification words it
(§4.1 step 3), with the rates already normalised to `[0, 1]`: start from
`baseRateRare`; if the rare-pity counter exceeds `pityStartRare`, add
`(rarePityCounter - pityStartRare) * pityIncrementRare`; clamp to at most
`1.0`; then force to exactly `1.0` once the counter has reached
`hardPityRare`.  Stated separately from `currentRate6` so that the two can
be compared. -/
def rareRateSpec (baseRateRare pityStartRare pityIncrementRare hardPityRare : ℚ)
    (rarePityCounter : ℕ) : ℚ :=
  let escalated :=
    if (rarePityCounter : ℚ) > pityStartRare then
      baseRateRare + ((rarePityCounter : ℚ) - pityStartRare) * pityIncrementRare
    else baseRateRare
  let clamped := min escalated 1
  if (rarePityCounter : ℚ) ≥ hardPityRare then 1 else clamped

/-- State of the aggregation loop in `runSimulation`: the running total of
pulls, the number of sessions run, the array of per-session pull counts
(`pullsArray`, which also determines the frequency map `counts` via
`List.count`), and the number of sessions that ended via the guarantee. -/
structure AggState where
  totalPulls : ℕ
  sessionCount : ℕ
  pullsArray : List ℕ
  triggeredCount : ℕ
deriving DecidableEq

/-- The aggregation state before the first session. -/
def initAggState : AggState := ⟨0, 0, [], 0⟩

/-- The `while (totalPulls < targetTotalPulls)` loop of `runSimulation`:
run whole sessions, accumulating their results, until the running total of
pulls reaches `targetTotalPulls`.  `fuel` bounds the number of sessions (the
source loop is unbounded); `none` means fuel or the random stream ran out. -/
def runSessions (cfg : SimulationConfig) :
    ℕ → AggState → List ℚ → Option (AggState × List ℚ)
  | fuel, st, rngs =>
    if (st.totalPulls : ℚ) < cfg.targetTotalPulls then
      match fuel with
      | 0 => none
      | fuel' + 1 =>
        match simulateOneSession cfg rngs with
        | none => none
        | some (res, rest) =>
          runSessions cfg fuel'
            ⟨st.totalPulls + res.pulls, st.sessionCount + 1,
             st.pullsArray ++ [res.pulls],
             st.triggeredCount + (if res.triggeredGuarantee then 1 else 0)⟩ rest
    else some (st, rngs)

/-- One row of the distribution table built by `runSimulation`. -/
structure DistEntry where
  pulls : ℕ
  count : ℕ
  percent : ℚ
  cumulativePercent : ℚ
deriving DecidableEq

/-- Rounding to 2 decimal places, as `Number(x.toFixed(2))` does. -/
def round2 (x : ℚ) : ℚ := (round (x * 100) : ℤ) / 100

/-- Rounding to 3 decimal places, as `x.toFixed(3)` does. -/
def round3 (x : ℚ) : ℚ := (round (x * 1000) : ℤ) / 1000

/-- The maximum observed pull count, `Math.max(...Object.keys(counts))`,
for a nonempty sample list (`Math.max()` of nothing is `-Infinity`). -/
def maxPull (arr : List ℕ) : ℕ := arr.foldr max 0

/-- `Math.max(...)` faithfully including the empty case (`none` stands for
`-Infinity`). -/
def maxPullOpt (arr : List ℕ) : Option ℕ :=
  if arr.isEmpty then none else some (maxPull arr)

/-- `chartMax = Math.max(maxPull, config.targetGuarantee)` as a rational
(`-Infinity` for the empty sample is absorbed by the `max`). -/
def chartMaxQ (cfg : SimulationConfig) (arr : List ℕ) : ℚ :=
  if arr.isEmpty then cfg.targetGuarantee
  else max (maxPull arr : ℚ) cfg.targetGuarantee

/-- The number of iterations of the `for (let i = 1; i <= chartMax; i++)`
loop: the loop visits exactly the integers `1, ..., ⌊chartMax⌋`. -/
def chartMaxN (cfg : SimulationConfig) (arr : List ℕ) : ℕ :=
  (Int.floor (chartMaxQ cfg arr)).toNat

/-- The value of `runningCount` after the distribution loop has processed
draw-count `i`: the sum of the frequencies of all draw-counts `1, ..., i`. -/
def runningCount (arr : List ℕ) (i : ℕ) : ℕ :=
  ∑ j in Finset.Icc 1 i, arr.count j

/-- The sparse-inclusion test of the distribution loop:
`count > 0 || i <= config.targetGuarantee || i % 10 === 0`. -/
def includeEntry (cfg : SimulationConfig) (arr : List ℕ) (i : ℕ) : Bool :=
  decide (0 < arr.count i) || decide ((i : ℚ) ≤ cfg.targetGuarantee) ||
    decide (i % 10 = 0)

/-- The `distribution` array built by `runSimulation` from the per-session
pull counts `arr` and the session count `sessionCount`. -/
def distribution (cfg : SimulationConfig) (arr : List ℕ) (sessionCount : ℕ) :
    List DistEntry :=
  ((List.range' 1 (chartMaxN cfg arr)).filter fun i => includeEntry cfg arr i).map
    fun i =>
      ⟨i, arr.count i, round3 ((arr.count i : ℚ) / sessionCount * 100),
        round2 ((runningCount arr i : ℚ) / sessionCount * 100)⟩

/-- `pullsArray.sort((a, b) => a - b)`: the pull counts sorted ascending. -/
def sortedPulls (arr : List ℕ) : List ℕ := arr.insertionSort (· ≤ ·)

/-- `pullsArray[Math.floor(pullsArray.length / 2)]` after sorting; `none`
models the `undefined` an out-of-bounds index yields on the empty array. -/
def medianPulls (arr : List ℕ) : Option ℕ :=
  (sortedPulls arr)[arr.length / 2]?

/-- Division as performed on JavaScript numbers: a zero divisor yields no
real number (`NaN` or `±Infinity`), modelled as `none`. -/
def jsDiv (a b : ℚ) : Option ℚ := if b = 0 then none else some (a / b)

/-- The `SimulationResult` record of `App.tsx`.  `averagePulls`, `medianPulls`
and `maxPulls` are optional because the source computes them by unguarded
division, indexing and `Math.max` even when no session was run. -/
structure SimulationResult where
  distribution : List DistEntry
  totalSimulations : ℕ
  totalPullsConsumed : ℕ
  averagePulls : Option ℚ
  medianPulls : Option ℕ
  pity120Triggered : ℕ
  maxPulls : Option ℕ
deriving DecidableEq

/-- The computation inside `runSimulation` (aggregation loop plus the
derived statistics), with `fuel` bounding the number of sessions and `rngs`
the random stream. -/
def runSimulation (cfg : SimulationConfig) (fuel : ℕ) (rngs : List ℚ) :
    Option SimulationResult :=
  match runSessions cfg fuel initAggState rngs with
  | none => none
  | some (st, _) =>
    some ⟨distribution cfg st.pullsArray st.sessionCount, st.sessionCount,
      st.totalPulls, jsDiv (st.totalPulls : ℚ) (st.sessionCount : ℚ),
      medianPulls st.pullsArray, st.triggeredCount, maxPullOpt st.pullsArray⟩

/-! ### Step lemmas: one equation for each branch of the session loop -/

/-- Guarantee branch: if the guarantee is enabled and fires at this draw, the
session returns immediately without touching the random stream. -/
theorem sessionLoop_guar (cfg : SimulationConfig) (pulls pity6 pity5 : ℕ)
    (rngs : List ℚ)
    (h : 0 < cfg.targetGuarantee ∧ ((pulls + 1 : ℕ) : ℚ) = cfg.targetGuarantee) :
    sessionLoop cfg pulls pity6 pity5 rngs = some (⟨pulls + 1, true⟩, rngs) := by
  rw [sessionLoop.eq_def]
  dsimp only
  rw [if_pos h]

/-- Exhausted stream before the first random draw of this iteration. -/
theorem sessionLoop_nil (cfg : SimulationConfig) (pulls pity6 pity5 : ℕ)
    (h : ¬(0 < cfg.targetGuarantee ∧ ((pulls + 1 : ℕ) : ℚ) = cfg.targetGuarantee)) :
    sessionLoop cfg pulls pity6 pity5 [] = none := by
  rw [sessionLoop.eq_def]
  dsimp only
  rw [if_neg h]

/-- Rare hit with the stream exhausted before the target-vs-non-target coin. -/
theorem sessionLoop_hit_one (cfg : SimulationConfig) (pulls pity6 pity5 : ℕ) (r : ℚ)
    (h : ¬(0 < cfg.targetGuarantee ∧ ((pulls + 1 : ℕ) : ℚ) = cfg.targetGuarantee))
    (hr : r < currentRate6 cfg (pity6 + 1)) :
    sessionLoop cfg pulls pity6 pity5 [r] = none := by
  rw [sessionLoop.eq_def]
  dsimp only
  rw [if_neg h]
  simp [hr]

/-- Rare hit whose coin toss selects the target: the session ends with
`triggeredGuarantee = false`. -/
theorem sessionLoop_hit_win (cfg : SimulationConfig) (pulls pity6 pity5 : ℕ)
    (r r2 : ℚ) (rest : List ℚ)
    (h : ¬(0 < cfg.targetGuarantee ∧ ((pulls + 1 : ℕ) : ℚ) = cfg.targetGuarantee))
    (hr : r < currentRate6 cfg (pity6 + 1)) (hr2 : r2 < 1 / 2) :
    sessionLoop cfg pulls pity6 pity5 (r :: r2 :: rest) =
      some (⟨pulls + 1, false⟩, rest) := by
  rw [sessionLoop.eq_def]
  dsimp only
  rw [if_neg h]
  simp [hr, hr2]
  intro hge
  exact absurd hge (not_le.mpr (by simpa [one_div] using hr2))

/-- Rare hit whose coin toss misses the target: the rare-pity counter resets
to 0, the common-pity counter keeps its incremented value, and the loop
continues. -/
theorem sessionLoop_hit_lose (cfg : SimulationConfig) (pulls pity6 pity5 : ℕ)
    (r r2 : ℚ) (rest : List ℚ)
    (h : ¬(0 < cfg.targetGuarantee ∧ ((pulls + 1 : ℕ) : ℚ) = cfg.targetGuarantee))
    (hr : r < currentRate6 cfg (pity6 + 1)) (hr2 : ¬ r2 < 1 / 2) :
    sessionLoop cfg pulls pity6 pity5 (r :: r2 :: rest) =
      sessionLoop cfg (pulls + 1) 0 (pity5 + 1) rest := by
  conv_lhs => rw [sessionLoop.eq_def]
  dsimp only
  rw [if_neg h]
  simp [hr, hr2]
  intro hlt
  exact absurd hlt (by simpa [one_div] using hr2)

/-- No rare hit: both pity counters keep their incremented values (the common
one is reset if the draw landed in the common-tier slice) and the loop
continues. -/
theorem sessionLoop_miss (cfg : SimulationConfig) (pulls pity6 pity5 : ℕ)
    (r : ℚ) (rest : List ℚ)
    (h : ¬(0 < cfg.targetGuarantee ∧ ((pulls + 1 : ℕ) : ℚ) = cfg.targetGuarantee))
    (hr : ¬ r < currentRate6 cfg (pity6 + 1)) :
    sessionLoop cfg pulls pity6 pity5 (r :: rest) =
      sessionLoop cfg (pulls + 1) (pity6 + 1)
        (if r < currentRate6 cfg (pity6 + 1) + currentRate5 cfg (pity5 + 1) then 0
         else pity5 + 1) rest := by
  conv_lhs => rw [sessionLoop.eq_def]
  dsimp only
  rw [if_neg h]
  simp [hr]

/-! ### Helper lemmas about the session loop -/

/-- A session result is flagged as guarantee-triggered exactly when the
guarantee is enabled and the returned pull count equals `targetGuarantee`. -/
theorem sessionLoop_triggered_iff (cfg : SimulationConfig)
    (pulls pity6 pity5 : ℕ) (rngs : List ℚ) :
    ∀ res rest, sessionLoop cfg pulls pity6 pity5 rngs = some (res, rest) →
      (res.triggeredGuarantee = true ↔
        0 < cfg.targetGuarantee ∧ (res.pulls : ℚ) = cfg.targetGuarantee) := by
  induction pulls, pity6, pity5, rngs using sessionLoop.induct cfg with
  | case1 pulls pity6 pity5 rngs h =>
    intro res rest heq
    rw [sessionLoop_guar cfg pulls pity6 pity5 rngs h] at heq
    injection heq with h1
    injection h1 with h2 h3
    subst h2
    simpa using h
  | case2 pulls pity6 pity5 h =>
    intro res rest heq
    rw [sessionLoop_nil cfg pulls pity6 pity5 h] at heq
    exact Option.noConfusion heq
  | case3 pulls pity6 pity5 h r hr =>
    intro res rest heq
    rw [sessionLoop_hit_one cfg pulls pity6 pity5 r h hr] at heq
    exact Option.noConfusion heq
  | case4 pulls pity6 pity5 h r hr r2 rest2 hr2 =>
    intro res rest heq
    rw [sessionLoop_hit_win cfg pulls pity6 pity5 r r2 rest2 h hr hr2] at heq
    injection heq with h1
    injection h1 with h2 h3
    subst h2
    simpa using fun hpos hval => h ⟨hpos, hval⟩
  | case5 pulls pity6 pity5 h r hr r2 rest2 hr2 ih =>
    intro res rest heq
    rw [sessionLoop_hit_lose cfg pulls pity6 pity5 r r2 rest2 h hr hr2] at heq
    exact ih res rest heq
  | case6 pulls pity6 pity5 h r rest2 hr ih =>
    intro res rest heq
    rw [sessionLoop_miss cfg pulls pity6 pity5 r rest2 h hr] at heq
    exact ih res rest heq

/-- Whenever the loop returns, the returned pull count is strictly larger
than the pull counter it started from. -/
theorem sessionLoop_pulls_lower (cfg : SimulationConfig)
    (pulls pity6 pity5 : ℕ) (rngs : List ℚ) :
    ∀ res rest, sessionLoop cfg pulls pity6 pity5 rngs = some (res, rest) →
      pulls + 1 ≤ res.pulls := by
  induction pulls, pity6, pity5, rngs using sessionLoop.induct cfg with
  | case1 pulls pity6 pity5 rngs h =>
    intro res rest heq
    rw [sessionLoop_guar cfg pulls pity6 pity5 rngs h] at heq
    injection heq with h1
    injection h1 with h2 h3
    subst h2
    exact le_refl _
  | case2 pulls pity6 pity5 h =>
    intro res rest heq
    rw [sessionLoop_nil cfg pulls pity6 pity5 h] at heq
    exact Option.noConfusion heq
  | case3 pulls pity6 pity5 h r hr =>
    intro res rest heq
    rw [sessionLoop_hit_one cfg pulls pity6 pity5 r h hr] at heq
    exact Option.noConfusion heq
  | case4 pulls pity6 pity5 h r hr r2 rest2 hr2 =>
    intro res rest heq
    rw [sessionLoop_hit_win cfg pulls pity6 pity5 r r2 rest2 h hr hr2] at heq
    injection heq with h1
    injection h1 with h2 h3
    subst h2
    exact le_refl _
  | case5 pulls pity6 pity5 h r hr r2 rest2 hr2 ih =>
    intro res rest heq
    rw [sessionLoop_hit_lose cfg pulls pity6 pity5 r r2 rest2 h hr hr2] at heq
    exact le_trans (Nat.le_succ _) (ih res rest heq)
  | case6 pulls pity6 pity5 h r rest2 hr ih =>
    intro res rest heq
    rw [sessionLoop_miss cfg pulls pity6 pity5 r rest2 h hr] at heq
    exact le_trans (Nat.le_succ _) (ih res rest heq)

/-- With an integer guarantee `g > pulls`, the loop returns within `g`
draws whenever the stream holds at least `2 * (g - pulls)` values. -/
theorem sessionLoop_int_guarantee (cfg : SimulationConfig) (g : ℕ)
    (hg : (g : ℚ) = cfg.targetGuarantee) :
    ∀ k pulls pity6 pity5 (rngs : List ℚ), pulls < g → g ≤ pulls + k →
      2 * (g - pulls) ≤ rngs.length →
      ∃ res rest, sessionLoop cfg pulls pity6 pity5 rngs = some (res, rest) ∧
        res.pulls ≤ g := by
  intro k
  induction k with
  | zero =>
    intro pulls pity6 pity5 rngs hlt hle
    omega
  | succ k ih =>
    intro pulls pity6 pity5 rngs hlt hle hlen
    by_cases hstep : pulls + 1 = g
    · have hcond : 0 < cfg.targetGuarantee ∧
          ((pulls + 1 : ℕ) : ℚ) = cfg.targetGuarantee := by
        constructor
        · rw [← hg]
          exact_mod_cast Nat.zero_lt_of_lt hlt
        · rw [← hg]
          exact_mod_cast hstep
      exact ⟨⟨pulls + 1, true⟩, rngs,
        sessionLoop_guar cfg pulls pity6 pity5 rngs hcond,
        by show pulls + 1 ≤ g; omega⟩
    · have hcond : ¬(0 < cfg.targetGuarantee ∧
          ((pulls + 1 : ℕ) : ℚ) = cfg.targetGuarantee) := by
        rintro ⟨-, habs⟩
        rw [← hg] at habs
        exact hstep (by exact_mod_cast habs)
      rcases rngs with - | ⟨r, - | ⟨r2, rest⟩⟩
      · exact absurd hlen (by simp; omega)
      · exact absurd hlen (by simp; omega)
      · by_cases hr : r < currentRate6 cfg (pity6 + 1)
        · by_cases hr2 : r2 < (1 : ℚ) / 2
          · exact ⟨⟨pulls + 1, false⟩, rest,
              sessionLoop_hit_win cfg pulls pity6 pity5 r r2 rest hcond hr hr2,
              by show pulls + 1 ≤ g; omega⟩
          · rw [sessionLoop_hit_lose cfg pulls pity6 pity5 r r2 rest hcond hr hr2]
            apply ih (pulls + 1) 0 (pity5 + 1) rest (by omega) (by omega)
            simp only [List.length_cons] at hlen
            omega
        · rw [sessionLoop_miss cfg pulls pity6 pity5 r (r2 :: rest) hcond hr]
          apply ih (pulls + 1) (pity6 + 1) _ (r2 :: rest) (by omega) (by omega)
          simp only [List.length_cons] at hlen ⊢
          omega

/-- Replacing `targetGuarantee` does not change the per-draw rates. -/
theorem currentRate6_set_guarantee (cfg : SimulationConfig) (t : ℚ) (c : ℕ) :
    currentRate6 {cfg with targetGuarantee := t} c = currentRate6 cfg c := rfl

/-- Replacing `targetGuarantee` does not change the per-draw rates. -/
theorem currentRate5_set_guarantee (cfg : SimulationConfig) (t : ℚ) (c : ℕ) :
    currentRate5 {cfg with targetGuarantee := t} c = currentRate5 cfg c := rfl

/-- If `targetGuarantee` is positive but equal to no integer, the loop
behaves exactly as it would with `targetGuarantee = 0`. -/
theorem sessionLoop_nonint_guarantee (cfg : SimulationConfig)
    (hint : ∀ z : ℤ, (z : ℚ) ≠ cfg.targetGuarantee)
    (pulls pity6 pity5 : ℕ) (rngs : List ℚ) :
    sessionLoop cfg pulls pity6 pity5 rngs =
      sessionLoop {cfg with targetGuarantee := 0} pulls pity6 pity5 rngs := by
  induction pulls, pity6, pity5, rngs using sessionLoop.induct cfg with
  | case1 pulls pity6 pity5 rngs h =>
    exact absurd h.2 (by exact_mod_cast hint (pulls + 1 : ℕ))
  | case2 pulls pity6 pity5 h =>
    rw [sessionLoop_nil cfg pulls pity6 pity5 h,
      sessionLoop_nil _ pulls pity6 pity5 (by simp)]
  | case3 pulls pity6 pity5 h r hr =>
    rw [sessionLoop_hit_one cfg pulls pity6 pity5 r h hr,
      sessionLoop_hit_one _ pulls pity6 pity5 r (by simp)
        (by rwa [currentRate6_set_guarantee])]
  | case4 pulls pity6 pity5 h r hr r2 rest2 hr2 =>
    rw [sessionLoop_hit_win cfg pulls pity6 pity5 r r2 rest2 h hr hr2,
      sessionLoop_hit_win _ pulls pity6 pity5 r r2 rest2 (by simp)
        (by rwa [currentRate6_set_guarantee]) hr2]
  | case5 pulls pity6 pity5 h r hr r2 rest2 hr2 ih =>
    rw [sessionLoop_hit_lose cfg pulls pity6 pity5 r r2 rest2 h hr hr2,
      sessionLoop_hit_lose _ pulls pity6 pity5 r r2 rest2 (by simp)
        (by rwa [currentRate6_set_guarantee]) hr2]
    exact ih
  | case6 pulls pity6 pity5 h r rest2 hr ih =>
    rw [sessionLoop_miss cfg pulls pity6 pity5 r rest2 h hr,
      sessionLoop_miss _ pulls pity6 pity5 r rest2 (by simp)
        (by rwa [currentRate6_set_guarantee])]
    rw [currentRate6_set_guarantee, currentRate5_set_guarantee]
    exact ih

/-! ### Concrete configurations used by witnesses and counterexamples -/

/-- The default configuration with the guarantee moved to the first draw. -/
def cfgGuar1 : SimulationConfig := ⟨0.8, 8, 65, 5, 80, 10, 1, 500000⟩

/-- A configuration with a certain rare hit on every draw and no guarantee. -/
def cfgSure : SimulationConfig := ⟨100, 8, 65, 5, 80, 10, 0, 500000⟩

/-- A configuration with a certain rare hit and a fractional guarantee. -/
def cfgHalf : SimulationConfig := ⟨100, 8, 65, 5, 80, 10, 1 / 2, 500000⟩

/-- The default configuration with the guarantee at the second draw. -/
def cfgGuar2 : SimulationConfig := ⟨0.8, 8, 65, 5, 80, 10, 2, 500000⟩

/-! ### Claims about the session simulator -/

/-- Claim C1: for every draw inside a session (the session loop computes the
rate of each draw with `currentRate6`), the current rare-tier probability is:
start at the base rate; if the rare-pity counter exceeds `pityStart6`, add
`(counter - pityStart6) * pityInc6`; clamp to at most 1; then force exactly 1
once the counter has reached `hardPity6`. -/
theorem claim_C1_rare_rate (cfg : SimulationConfig) (c : ℕ) :
    currentRate6 cfg c =
      rareRateSpec (cfg.baseRate6 / 100) cfg.pityStart6 (cfg.pityInc6 / 100)
        cfg.hardPity6 c := by
  have hmin : ∀ x : ℚ, (if x > 1 then (1 : ℚ) else x) = min x 1 := by
    intro x
    rcases le_or_lt x 1 with hx | hx
    · rw [if_neg (not_lt.mpr hx), min_eq_left hx]
    · rw [if_pos hx, min_eq_right hx.le]
  simp only [currentRate6, rareRateSpec]
  rw [hmin]

/-- Claim C2: when the guarantee is enabled and the draw counter reaches
`targetGuarantee` at this draw, the session returns
`(targetGuarantee, guaranteeTriggered = true)` immediately, for every random
stream (even the empty one) — the check precedes the random draw. -/
theorem claim_C2_guarantee_short_circuits (cfg : SimulationConfig)
    (pulls pity6 pity5 : ℕ) (rngs : List ℚ)
    (hpos : 0 < cfg.targetGuarantee)
    (hreach : ((pulls + 1 : ℕ) : ℚ) = cfg.targetGuarantee) :
    sessionLoop cfg pulls pity6 pity5 rngs = some (⟨pulls + 1, true⟩, rngs) :=
  sessionLoop_guar cfg pulls pity6 pity5 rngs ⟨hpos, hreach⟩

/-- Witness for C2: with the guarantee at 1, the very first draw returns
`(1, true)` although the random stream is empty. -/
theorem claim_C2_guarantee_short_circuits_witness :
    sessionLoop cfgGuar1 0 0 0 [] = some (⟨1, true⟩, []) :=
  claim_C2_guarantee_short_circuits cfgGuar1 0 0 0 []
    (by norm_num [cfgGuar1]) (by norm_num [cfgGuar1])

/-- Claim C3: on a draw where `r` lands below the current rare-tier rate
(and the guarantee does not fire), the second random value decides: below
one half the session ends with `(draws, false)`; otherwise the loop
continues with the rare-pity counter reset to 0 while the common-pity
counter keeps its incremented value (the common-tier check is skipped). -/
theorem claim_C3_rare_hit (cfg : SimulationConfig) (pulls pity6 pity5 : ℕ)
    (r r2 : ℚ) (rest : List ℚ)
    (hng : ¬(0 < cfg.targetGuarantee ∧ ((pulls + 1 : ℕ) : ℚ) = cfg.targetGuarantee))
    (hhit : r < currentRate6 cfg (pity6 + 1)) :
    (r2 < 1 / 2 →
      sessionLoop cfg pulls pity6 pity5 (r :: r2 :: rest) =
        some (⟨pulls + 1, false⟩, rest)) ∧
    (¬ r2 < 1 / 2 →
      sessionLoop cfg pulls pity6 pity5 (r :: r2 :: rest) =
        sessionLoop cfg (pulls + 1) 0 (pity5 + 1) rest) :=
  ⟨fun h => sessionLoop_hit_win cfg pulls pity6 pity5 r r2 rest hng hhit h,
   fun h => sessionLoop_hit_lose cfg pulls pity6 pity5 r r2 rest hng hhit h⟩

/-- Witness for C3: a certain rare hit at the first draw with a winning
coin ends the session at one pull. -/
theorem claim_C3_rare_hit_witness :
    sessionLoop cfgSure 0 0 0 [0, 0] = some (⟨1, false⟩, []) :=
  (claim_C3_rare_hit cfgSure 0 0 0 0 0 []
    (by norm_num [cfgSure]) (by norm_num [cfgSure, currentRate6])).1
    (by norm_num)

/-- Claim C4 (amended): every session result has `draws ≥ 1`; and whenever
`targetGuarantee` is a positive INTEGER `g`, the loop terminates within `g`
draws (given at least `2 * g` random values, the most `g` draws can consume)
and the returned draw count never exceeds `g`. -/
theorem claim_C4_session_bounds (cfg : SimulationConfig) (rngs : List ℚ)
    (res : SessionResult) (rest : List ℚ) (g : ℕ) :
    (simulateOneSession cfg rngs = some (res, rest) → 1 ≤ res.pulls) ∧
    ((g : ℚ) = cfg.targetGuarantee → 0 < g → 2 * g ≤ rngs.length →
      ∃ res2 rest2, simulateOneSession cfg rngs = some (res2, rest2) ∧
        res2.pulls ≤ g) := by
  constructor
  · intro h
    exact sessionLoop_pulls_lower cfg 0 0 0 rngs res rest h
  · intro hg hpos hlen
    exact sessionLoop_int_guarantee cfg g hg g 0 0 0 rngs hpos (by omega)
      (by simpa using hlen)

/-- Witness for C4: both conjuncts at a concrete input — the guarantee at 2
ends the session within 2 draws on a stream of 4 misses. -/
theorem claim_C4_session_bounds_witness :
    1 ≤ SessionResult.pulls ⟨2, true⟩ ∧
    ∃ res2 rest2,
      simulateOneSession cfgGuar2 [1, 1, 1, 1] = some (res2, rest2) ∧
        res2.pulls ≤ 2 := by
  constructor
  · exact (claim_C4_session_bounds cfgGuar2 [1, 1, 1, 1] ⟨2, true⟩ [1, 1, 1] 2).1
      (by norm_num [simulateOneSession, sessionLoop, currentRate6, cfgGuar2])
  · exact (claim_C4_session_bounds cfgGuar2 [1, 1, 1, 1] ⟨2, true⟩ [1, 1, 1] 2).2
      (by norm_num [cfgGuar2]) (by norm_num) (by norm_num)

/-- Counterexample to C4 as stated: `targetGuarantee = 1/2` is positive, yet
a session returns 1 pull, which exceeds it — with a fractional guarantee the
draw count is not bounded by `targetGuarantee`. -/
theorem claim_C4_counterexample :
    0 < cfgHalf.targetGuarantee ∧
      simulateOneSession cfgHalf [0, 0] = some (⟨1, false⟩, []) ∧
      ¬ ((1 : ℚ) ≤ cfgHalf.targetGuarantee) := by
  refine ⟨by norm_num [cfgHalf], ?_, by norm_num [cfgHalf]⟩
  norm_num [simulateOneSession, sessionLoop, currentRate6, cfgHalf]

/-- Claim C9: a session result has `guaranteeTriggered = true` exactly when
the guarantee is enabled and the returned draw count equals
`targetGuarantee`; in particular every randomly successful session returns
`false`, and with `targetGuarantee = 0` the flag is always `false`. -/
theorem claim_C9_triggered_iff (cfg : SimulationConfig) (rngs : List ℚ)
    (res : SessionResult) (rest : List ℚ)
    (h : simulateOneSession cfg rngs = some (res, rest)) :
    res.triggeredGuarantee = true ↔
      0 < cfg.targetGuarantee ∧ (res.pulls : ℚ) = cfg.targetGuarantee :=
  sessionLoop_triggered_iff cfg 0 0 0 rngs res rest h

/-- Witness for C9 at the guarantee-at-1 configuration. -/
theorem claim_C9_triggered_iff_witness :
    SessionResult.triggeredGuarantee ⟨1, true⟩ = true ↔
      0 < cfgGuar1.targetGuarantee ∧
        ((SessionResult.pulls ⟨1, true⟩ : ℕ) : ℚ) = cfgGuar1.targetGuarantee :=
  claim_C9_triggered_iff cfgGuar1 [] ⟨1, true⟩ []
    (by norm_num [simulateOneSession, sessionLoop, cfgGuar1])

/-- Claim C10: if `targetGuarantee` is positive but not an integer, the
session behaves exactly as if `targetGuarantee = 0` (the equality-test
branch is unreachable), and `guaranteeTriggered` is always `false`. -/
theorem claim_C10_fractional_guarantee (cfg : SimulationConfig)
    (hpos : 0 < cfg.targetGuarantee)
    (hint : ∀ z : ℤ, (z : ℚ) ≠ cfg.targetGuarantee)
    (pulls pity6 pity5 : ℕ) (rngs : List ℚ) :
    sessionLoop cfg pulls pity6 pity5 rngs =
      sessionLoop {cfg with targetGuarantee := 0} pulls pity6 pity5 rngs ∧
    ∀ res rest, sessionLoop cfg pulls pity6 pity5 rngs = some (res, rest) →
      res.triggeredGuarantee = false := by
  refine ⟨sessionLoop_nonint_guarantee cfg hint pulls pity6 pity5 rngs, ?_⟩
  intro res rest h
  by_contra hb
  have htrig := (sessionLoop_triggered_iff cfg pulls pity6 pity5 rngs res rest h).mp
    (by simpa using hb)
  exact hint (res.pulls : ℤ) (by exact_mod_cast htrig.2)

/-- Witness for C10 at `targetGuarantee = 1/2`. -/
theorem claim_C10_fractional_guarantee_witness :
    sessionLoop cfgHalf 0 0 0 [0, 0] =
      sessionLoop {cfgHalf with targetGuarantee := 0} 0 0 0 [0, 0] := by
  have hint : ∀ z : ℤ, (z : ℚ) ≠ cfgHalf.targetGuarantee := by
    intro z hz
    simp only [cfgHalf] at hz
    have h1 : (2 : ℚ) * z = 1 := by rw [hz]; norm_num
    have h2 : (2 * z : ℤ) = 1 := by exact_mod_cast h1
    omega
  exact (claim_C10_fractional_guarantee cfgHalf (by norm_num [cfgHalf]) hint
    0 0 0 [0, 0]).1

/-! ### Step lemmas and invariants for the aggregation loop -/

/-- The aggregation loop stops as soon as the total reaches the target. -/
theorem runSessions_stop (cfg : SimulationConfig) (fuel : ℕ) (st : AggState)
    (rngs : List ℚ) (h : ¬ (st.totalPulls : ℚ) < cfg.targetTotalPulls) :
    runSessions cfg fuel st rngs = some (st, rngs) := by
  rw [runSessions.eq_def]
  dsimp only
  rw [if_neg h]

/-- Out of session fuel below the target. -/
theorem runSessions_zero (cfg : SimulationConfig) (st : AggState) (rngs : List ℚ)
    (h : (st.totalPulls : ℚ) < cfg.targetTotalPulls) :
    runSessions cfg 0 st rngs = none := by
  rw [runSessions.eq_def]
  dsimp only
  rw [if_pos h]

/-- Below the target, one more session is run and accumulated. -/
theorem runSessions_step (cfg : SimulationConfig) (fuel : ℕ) (st : AggState)
    (rngs : List ℚ) (res : SessionResult) (rest : List ℚ)
    (h : (st.totalPulls : ℚ) < cfg.targetTotalPulls)
    (hs : simulateOneSession cfg rngs = some (res, rest)) :
    runSessions cfg (fuel + 1) st rngs =
      runSessions cfg fuel
        ⟨st.totalPulls + res.pulls, st.sessionCount + 1,
         st.pullsArray ++ [res.pulls],
         st.triggeredCount + (if res.triggeredGuarantee then 1 else 0)⟩ rest := by
  conv_lhs => rw [runSessions.eq_def]
  dsimp only
  rw [if_pos h, hs]

/-- When the aggregation loop is entered below the target and returns, the
final total has reached the target, and removing the last session's pulls
drops it back below the target (the overshoot is at most one session). -/
theorem runSessions_bounds (cfg : SimulationConfig) :
    ∀ (fuel : ℕ) (st : AggState) (rngs : List ℚ) (stf : AggState) (rest : List ℚ),
      (st.totalPulls : ℚ) < cfg.targetTotalPulls →
      runSessions cfg fuel st rngs = some (stf, rest) →
      cfg.targetTotalPulls ≤ (stf.totalPulls : ℚ) ∧
        ∃ d ∈ stf.pullsArray, d ≤ stf.totalPulls ∧
          ((stf.totalPulls - d : ℕ) : ℚ) < cfg.targetTotalPulls := by
  intro fuel
  induction fuel with
  | zero =>
    intro st rngs stf rest hlt hrun
    rw [runSessions_zero cfg st rngs hlt] at hrun
    exact Option.noConfusion hrun
  | succ fuel ih =>
    intro st rngs stf rest hlt hrun
    rcases hsim : simulateOneSession cfg rngs with - | ⟨res, rest1⟩
    · rw [runSessions.eq_def] at hrun
      dsimp only at hrun
      rw [if_pos hlt, hsim] at hrun
      exact Option.noConfusion hrun
    · rw [runSessions_step cfg fuel st rngs res rest1 hlt hsim] at hrun
      set st1 : AggState :=
        ⟨st.totalPulls + res.pulls, st.sessionCount + 1,
         st.pullsArray ++ [res.pulls],
         st.triggeredCount + (if res.triggeredGuarantee then 1 else 0)⟩ with hst1
      by_cases h1 : (st1.totalPulls : ℚ) < cfg.targetTotalPulls
      · exact ih st1 rest1 stf rest h1 hrun
      · rw [runSessions_stop cfg fuel st1 rest1 h1] at hrun
        injection hrun with h2
        injection h2 with h3 h4
        subst h3
        refine ⟨not_lt.mp h1, res.pulls, ?_, ?_, ?_⟩
        · simp [hst1]
        · simp [hst1]
        · have : st1.totalPulls - res.pulls = st.totalPulls := by
            simp [hst1]
          rw [this]
          exact hlt

/-- Claim C5: the aggregator runs whole sessions until the total number of
pulls consumed reaches `targetTotalPulls`; the reported total is at least
`targetTotalPulls` and, given any bound `M` on single-session draw counts,
less than `targetTotalPulls + M` (the overshoot is at most one session). -/
theorem claim_C5_total_consumed (cfg : SimulationConfig) (fuel : ℕ)
    (rngs : List ℚ) (stf : AggState) (rest : List ℚ) (M : ℕ)
    (hpos : 0 < cfg.targetTotalPulls)
    (hrun : runSessions cfg fuel initAggState rngs = some (stf, rest))
    (hM : ∀ x ∈ stf.pullsArray, x ≤ M) :
    cfg.targetTotalPulls ≤ (stf.totalPulls : ℚ) ∧
      (stf.totalPulls : ℚ) < cfg.targetTotalPulls + M := by
  obtain ⟨hge, d, hd, hdle, hlt⟩ :=
    runSessions_bounds cfg fuel initAggState rngs stf rest (by simpa [initAggState]) hrun
  refine ⟨hge, ?_⟩
  have hcast : ((stf.totalPulls - d : ℕ) : ℚ) = (stf.totalPulls : ℚ) - d :=
    Nat.cast_sub hdle
  have hdM : (d : ℚ) ≤ (M : ℚ) := by exact_mod_cast hM d hd
  rw [hcast] at hlt
  linarith

/-- A small aggregation run for the witnesses below: guarantee at the first
draw (every session is one pull long) and a total-pull target of 2. -/
def cfgAgg : SimulationConfig := ⟨0.8, 8, 65, 5, 80, 10, 1, 2⟩

/-- Witness for C5: two one-pull sessions exactly meet the target of 2. -/
theorem claim_C5_total_consumed_witness :
    cfgAgg.targetTotalPulls ≤ ((2 : ℕ) : ℚ) ∧
      ((2 : ℕ) : ℚ) < cfgAgg.targetTotalPulls + (1 : ℕ) := by
  have hrun : runSessions cfgAgg 3 initAggState [] =
      some (⟨2, 2, [1, 1], 2⟩, []) := by
    norm_num [runSessions, simulateOneSession, sessionLoop, initAggState, cfgAgg]
  exact claim_C5_total_consumed cfgAgg 3 [] ⟨2, 2, [1, 1], 2⟩ [] 1
    (by norm_num [cfgAgg]) hrun (by decide)

/-- Claim C7 (amended): the median is taken from a sorted permutation of the
per-session draw counts at index `floor(count / 2)`; for an even count
`2 * k` this is the element at index `k`, the UPPER-middle element of the
sorted samples (not the lower-middle one). -/
theorem claim_C7_median (arr : List ℕ) :
    List.Sorted (· ≤ ·) (sortedPulls arr) ∧
    List.Perm (sortedPulls arr) arr ∧
    ∀ k, arr.length = 2 * k → medianPulls arr = (sortedPulls arr)[k]? := by
  refine ⟨List.sorted_insertionSort _ arr, List.perm_insertionSort _ arr, ?_⟩
  intro k hk
  unfold medianPulls
  rw [hk]
  have h2 : 2 * k / 2 = k := by omega
  rw [h2]

/-- Witness for C7 on the two-element sample `[1, 2]`. -/
theorem claim_C7_median_witness :
    List.Sorted (· ≤ ·) (sortedPulls [1, 2]) ∧
      List.Perm (sortedPulls [1, 2]) [1, 2] ∧
      medianPulls [1, 2] = (sortedPulls [1, 2])[1]? :=
  ⟨(claim_C7_median [1, 2]).1, (claim_C7_median [1, 2]).2.1,
   (claim_C7_median [1, 2]).2.2 1 (by decide)⟩

/-- Counterexample to C7 as stated: on the even-sized sorted sample
`[1, 2]` the code's median is 2, the element at index `floor(2/2) = 1`,
whereas the lower-middle element (index 0) is 1. -/
theorem claim_C7_median_counterexample :
    medianPulls [1, 2] = some 2 ∧ (sortedPulls [1, 2])[0]? = some 1 ∧
      (2 : ℕ) ≠ 1 := by
  refine ⟨by decide, by decide, by decide⟩

/-- A configuration whose pull target is zero: the aggregator must not run
any session. -/
def cfgZero : SimulationConfig := ⟨0.8, 8, 65, 5, 80, 10, 120, 0⟩

/-- Claim C8 (what the code actually does): with `targetTotalPulls ≤ 0` the
aggregation loop runs zero sessions, and the summary statistics are then
computed UNGUARDED: the average is `0 / 0` (JavaScript `NaN`, here `none`),
the median indexes the empty array (`undefined`), and the maximum is
`Math.max()` of nothing (`-Infinity`) — all stored in the result record
handed to the display layer. -/
theorem claim_C8_zero_sessions_unguarded (cfg : SimulationConfig) (fuel : ℕ)
    (rngs : List ℚ) (hle : cfg.targetTotalPulls ≤ 0) :
    runSimulation cfg fuel rngs =
      some ⟨distribution cfg [] 0, 0, 0, none, none, 0, none⟩ := by
  have hstop := runSessions_stop cfg fuel initAggState rngs
    (by simpa [initAggState] using not_lt.mpr hle)
  unfold runSimulation
  rw [hstop]
  simp [initAggState, jsDiv, medianPulls, sortedPulls, maxPullOpt]

/-- Witness for C8 at `targetTotalPulls = 0`. -/
theorem claim_C8_zero_sessions_unguarded_witness :
    runSimulation cfgZero 0 [] =
      some ⟨distribution cfgZero [] 0, 0, 0, none, none, 0, none⟩ :=
  claim_C8_zero_sessions_unguarded cfgZero 0 [] (by norm_num [cfgZero])

/-! ### Lemmas for the distribution record -/

/-- The frequencies of the draw-counts `1, ..., m` sum to the number of
samples, provided every sample lies in that interval. -/
theorem sum_count_eq_length (m : ℕ) :
    ∀ arr : List ℕ, (∀ x ∈ arr, 1 ≤ x ∧ x ≤ m) →
      ∑ j in Finset.Icc 1 m, arr.count j = arr.length := by
  intro arr
  induction arr with
  | nil => simp
  | cons a l ih =>
    intro h
    have ha := h a (List.mem_cons_self a l)
    have hl := fun x hx => h x (List.mem_cons_of_mem a hx)
    simp only [List.count_cons, List.length_cons, beq_iff_eq]
    rw [Finset.sum_add_distrib, ih hl,
      Finset.sum_ite_eq (Finset.Icc 1 m) a fun _ => 1,
      if_pos (Finset.mem_Icc.mpr ha)]

/-- `runningCount` is monotone in the draw-count. -/
theorem runningCount_mono (arr : List ℕ) {i j : ℕ} (h : i ≤ j) :
    runningCount arr i ≤ runningCount arr j :=
  Finset.sum_le_sum_of_subset (Finset.Icc_subset_Icc_right h)

/-- Rounding to two decimals is monotone. -/
theorem round2_mono {x y : ℚ} (h : x ≤ y) : round2 x ≤ round2 y := by
  have h1 : round (x * 100) ≤ round (y * 100) := by
    rw [round_eq, round_eq]
    exact Int.floor_mono (by linarith)
  have h2 : ((round (x * 100) : ℤ) : ℚ) ≤ ((round (y * 100) : ℤ) : ℚ) := by
    exact_mod_cast h1
  unfold round2
  linarith

/-- Every sample is at most the maximum. -/
theorem le_maxPull (arr : List ℕ) : ∀ x ∈ arr, x ≤ maxPull arr := by
  induction arr with
  | nil => simp
  | cons a l ih =>
    intro x hx
    rcases List.mem_cons.mp hx with rfl | hx
    · exact le_max_left _ (maxPull l)
    · exact le_trans (ih x hx) (le_max_right a (maxPull l))

/-- The maximum of a nonempty sample list is itself a sample. -/
theorem maxPull_mem (arr : List ℕ) (h : arr ≠ []) : maxPull arr ∈ arr := by
  induction arr with
  | nil => exact absurd rfl h
  | cons a l ih =>
    rcases eq_or_ne l [] with rfl | hl
    · simp [maxPull]
    · rcases le_or_lt (maxPull l) a with hle | hlt
      · have hmx : maxPull (a :: l) = a := max_eq_left hle
        rw [hmx]
        exact List.mem_cons_self a l
      · have hmx : maxPull (a :: l) = maxPull l := max_eq_right hlt.le
        rw [hmx]
        exact List.mem_cons_of_mem a (ih hl)

/-- The distribution loop scans at least up to the maximum observed
draw-count. -/
theorem maxPull_le_chartMaxN (cfg : SimulationConfig) (arr : List ℕ)
    (h : arr ≠ []) : maxPull arr ≤ chartMaxN cfg arr := by
  have h1 : ((maxPull arr : ℤ) : ℚ) ≤ chartMaxQ cfg arr := by
    rw [chartMaxQ, if_neg (by simpa using h)]
    push_cast
    exact le_max_left _ _
  have h2 : (maxPull arr : ℤ) ≤ Int.floor (chartMaxQ cfg arr) := Int.le_floor.mpr h1
  calc maxPull arr = (maxPull arr : ℤ).toNat := by simp
  _ ≤ chartMaxN cfg arr := Int.toNat_le_toNat h2

/-- Well-formedness of the distribution built from a nonempty sample list of
positive draw-counts: the cumulative percentages are non-decreasing along
the record, the row of the maximum observed draw-count is present with
cumulative percentage exactly 100, and the full frequency map sums to the
number of samples. -/
theorem distribution_wellformed (cfg : SimulationConfig) (arr : List ℕ)
    (hne : arr ≠ []) (h1 : ∀ x ∈ arr, 1 ≤ x) :
    List.Pairwise (fun e1 e2 => e1.cumulativePercent ≤ e2.cumulativePercent)
      (distribution cfg arr arr.length) ∧
    (∃ e ∈ distribution cfg arr arr.length,
      e.pulls = maxPull arr ∧ e.cumulativePercent = 100) ∧
    ∑ j in Finset.Icc 1 (chartMaxN cfg arr), arr.count j = arr.length := by
  have hlen : 0 < arr.length := List.length_pos.mpr hne
  have hlenq : (0 : ℚ) < arr.length := by exact_mod_cast hlen
  have hbound : ∀ x ∈ arr, 1 ≤ x ∧ x ≤ chartMaxN cfg arr := fun x hx =>
    ⟨h1 x hx, le_trans (le_maxPull arr x hx) (maxPull_le_chartMaxN cfg arr hne)⟩
  refine ⟨?_, ?_, sum_count_eq_length _ arr hbound⟩
  · unfold distribution
    rw [List.pairwise_map]
    apply List.Pairwise.imp ?_
      (List.Pairwise.filter _ (List.pairwise_lt_range' 1 (chartMaxN cfg arr)))
    intro i j hij
    dsimp only
    apply round2_mono
    have hrc : (runningCount arr i : ℚ) ≤ (runningCount arr j : ℚ) := by
      exact_mod_cast runningCount_mono arr hij.le
    have hdiv : (runningCount arr i : ℚ) / arr.length ≤
        (runningCount arr j : ℚ) / arr.length :=
      (div_le_div_right hlenq).mpr hrc
    nlinarith
  · have hmem : maxPull arr ∈ arr := maxPull_mem arr hne
    have hmx1 : 1 ≤ maxPull arr := h1 _ hmem
    have hmxN : maxPull arr ≤ chartMaxN cfg arr := maxPull_le_chartMaxN cfg arr hne
    have hinr : maxPull arr ∈ List.range' 1 (chartMaxN cfg arr) :=
      List.mem_range'_1.mpr ⟨hmx1, by omega⟩
    have hcount : 0 < arr.count (maxPull arr) := List.count_pos_iff.mpr hmem
    have hfil : maxPull arr ∈ (List.range' 1 (chartMaxN cfg arr)).filter
        fun i => includeEntry cfg arr i := by
      refine List.mem_filter.mpr ⟨hinr, ?_⟩
      simp [includeEntry, hcount]
    refine ⟨_, List.mem_map_of_mem _ hfil, rfl, ?_⟩
    have hrc : runningCount arr (maxPull arr) = arr.length := by
      unfold runningCount
      exact sum_count_eq_length _ arr fun x hx => ⟨h1 x hx, le_maxPull arr x hx⟩
    dsimp only
    rw [hrc]
    have hone : ((arr.length : ℚ)) / arr.length * 100 = 100 := by
      field_simp
    rw [hone]
    unfold round2
    rw [show ((100 : ℚ) * 100) = ((10000 : ℕ) : ℚ) by norm_num, round_natCast]
    norm_num

/-- Along the aggregation loop, every recorded session length is at least 1
and the session counter equals the length of the pulls array. -/
theorem runSessions_invariant (cfg : SimulationConfig) :
    ∀ (fuel : ℕ) (st : AggState) (rngs : List ℚ) (stf : AggState) (rest : List ℚ),
      runSessions cfg fuel st rngs = some (stf, rest) →
      (∀ x ∈ st.pullsArray, 1 ≤ x) → st.sessionCount = st.pullsArray.length →
      (∀ x ∈ stf.pullsArray, 1 ≤ x) ∧ stf.sessionCount = stf.pullsArray.length := by
  intro fuel
  induction fuel with
  | zero =>
    intro st rngs stf rest hrun h1 h2
    by_cases hlt : (st.totalPulls : ℚ) < cfg.targetTotalPulls
    · rw [runSessions_zero cfg st rngs hlt] at hrun
      exact Option.noConfusion hrun
    · rw [runSessions_stop cfg 0 st rngs hlt] at hrun
      injection hrun with h3
      injection h3 with h4 h5
      subst h4
      exact ⟨h1, h2⟩
  | succ fuel ih =>
    intro st rngs stf rest hrun h1 h2
    by_cases hlt : (st.totalPulls : ℚ) < cfg.targetTotalPulls
    · rcases hsim : simulateOneSession cfg rngs with - | ⟨res, rest1⟩
      · rw [runSessions.eq_def] at hrun
        dsimp only at hrun
        rw [if_pos hlt, hsim] at hrun
        exact Option.noConfusion hrun
      · rw [runSessions_step cfg fuel st rngs res rest1 hlt hsim] at hrun
        apply ih _ rest1 stf rest hrun
        · intro x hx
          rcases List.mem_append.mp hx with hx | hx
          · exact h1 x hx
          · rw [List.mem_singleton.mp hx]
            exact sessionLoop_pulls_lower cfg 0 0 0 rngs res rest1 hsim
        · simp [h2]
    · rw [runSessions_stop cfg _ st rngs hlt] at hrun
      injection hrun with h3
      injection h3 with h4 h5
      subst h4
      exact ⟨h1, h2⟩

/-- Claim C6: for every aggregation run with a positive pull target (hence
at least one session), the distribution record is well-formed: cumulative
percentages are non-decreasing in draw-count, the cumulative percentage is
exactly 100 at the maximum observed draw-count, and the underlying
(non-sparse) frequency map sums exactly to the session count. -/
theorem claim_C6_distribution_wellformed (cfg : SimulationConfig) (fuel : ℕ)
    (rngs : List ℚ) (stf : AggState) (rest : List ℚ)
    (hpos : 0 < cfg.targetTotalPulls)
    (hrun : runSessions cfg fuel initAggState rngs = some (stf, rest)) :
    List.Pairwise (fun e1 e2 => e1.cumulativePercent ≤ e2.cumulativePercent)
      (distribution cfg stf.pullsArray stf.sessionCount) ∧
    (∃ e ∈ distribution cfg stf.pullsArray stf.sessionCount,
      e.pulls = maxPull stf.pullsArray ∧ e.cumulativePercent = 100) ∧
    ∑ j in Finset.Icc 1 (chartMaxN cfg stf.pullsArray),
        stf.pullsArray.count j = stf.sessionCount := by
  obtain ⟨h1, h2⟩ := runSessions_invariant cfg fuel initAggState rngs stf rest hrun
    (by simp [initAggState]) (by simp [initAggState])
  obtain ⟨-, d, hd, -, -⟩ := runSessions_bounds cfg fuel initAggState rngs stf rest
    (by simpa [initAggState]) hrun
  have hne : stf.pullsArray ≠ [] := fun hnil => by simp [hnil] at hd
  rw [h2]
  exact distribution_wellformed cfg stf.pullsArray hne h1

/-- Witness for C6 on the two-session aggregation run of `cfgAgg`. -/
theorem claim_C6_distribution_wellformed_witness :
    List.Pairwise (fun e1 e2 => e1.cumulativePercent ≤ e2.cumulativePercent)
      (distribution cfgAgg [1, 1] 2) ∧
    (∃ e ∈ distribution cfgAgg [1, 1] 2,
      e.pulls = maxPull [1, 1] ∧ e.cumulativePercent = 100) ∧
    ∑ j in Finset.Icc 1 (chartMaxN cfgAgg [1, 1]), List.count j [1, 1] = 2 :=
  claim_C6_distribution_wellformed cfgAgg 3 [] ⟨2, 2, [1, 1], 2⟩ []
    (by norm_num [cfgAgg])
    (by norm_num [runSessions, simulateOneSession, sessionLoop, initAggState, cfgAgg])

end Gacha
